import Mathlib

/-!
Shallow embedding of the documentation generator in `main.go` of
`gitlab-component-docs-gen` (the current version: the one with
`formatDefault`, `resolveProjectPath`, `resolveVersion`,
`parseGitRemoteURL`, `readConfigVersion`, `readConfigProjectPath`,
`loadComponentDescription` and `parseTemplate`).

YAML values decoded by `yaml.Unmarshal` into a Go `interface{}` are
modelled by the inductive type `YamlValue`; Go `nil` (produced both for
an absent `default:` key and for an explicit YAML `null`) is `vnull`.
Integer scalars are `vint`; floating-point scalars are `vfloat`,
carrying the value after Go's binary-to-shortest-decimal conversion
(see `GoFloat`), so that the decimal formatting the program applies to
them is modelled exactly.  Effects (file reads, environment variables,
subprocess output) are passed in as explicit arguments.
-/

/-- A `float64` value as it enters Go's decimal formatters: the sign,
the shortest round-trip mantissa digits (most significant first, as
produced by strconv's shortest conversion; empty for the value zero),
and `dp`, the position of the decimal point, so the magnitude is
`0.digits × 10 ^ dp`.  The binary64-to-shortest-decimal step itself is
floating-point machinery and is not re-derived here; the formatting
applied to its output by `fmt` and `encoding/json` is modelled
exactly. -/
structure GoFloat where
  neg : Bool
  digits : List (Fin 10)
  dp : Int

/-- The characters of a run of decimal digits. -/
def digitsToChars (ds : List (Fin 10)) : List Char :=
  ds.map (fun d => Nat.digitChar d.val)

/-- strconv's `%f`-style body for shortest digits: `dp ≤ 0` puts a
zero integer part and `-dp` leading fractional zeros, `dp ≥ len`
pads the integer part with zeros and has no fraction, and otherwise
the decimal point splits the digits. -/
def formatFixed (ds : List (Fin 10)) (dp : Int) : String :=
  if dp ≤ 0 then
    "0." ++ (List.replicate (-dp).toNat '0').asString ++ (digitsToChars ds).asString
  else if (ds.length : Int) ≤ dp then
    (digitsToChars ds).asString ++ (List.replicate (dp.toNat - ds.length) '0').asString
  else
    (digitsToChars (ds.take dp.toNat)).asString ++ "."
      ++ (digitsToChars (ds.drop dp.toNat)).asString

/-- strconv's exponent suffix after the `e`: an explicit sign and at
least two digits. -/
def formatExpPart (exp : Int) : String :=
  (if exp < 0 then "-" else "+")
    ++ (if exp.natAbs < 10 then "0" ++ Nat.repr exp.natAbs else Nat.repr exp.natAbs)

/-- strconv's `%e`-style form for shortest digits: leading digit, the
remaining digits after a decimal point when there are any, then the
exponent suffix. -/
def formatSci (ds : List (Fin 10)) (exp : Int) : String :=
  (match ds with
   | [] => "0"
   | d :: rest =>
     String.singleton (Nat.digitChar d.val)
       ++ (if rest.isEmpty then "" else "." ++ (digitsToChars rest).asString))
  ++ "e" ++ formatExpPart exp

/-- `fmt.Sprintf("%v", f)` for a `float64`, i.e.
`strconv.FormatFloat(f, 'g', -1, 64)`: with shortest digits the `%e`
form is chosen when the decimal exponent `dp - 1` is below `-4` or at
least `6`, and the `%f` form otherwise; zero prints as `0`. -/
def goFormatFloat (f : GoFloat) : String :=
  (if f.neg then "-" else "")
    ++ (if f.digits.isEmpty then "0"
        else if f.dp - 1 < -4 ∨ 6 ≤ f.dp - 1 then formatSci f.digits (f.dp - 1)
        else formatFixed f.digits f.dp)

/-- `encoding/json`'s final touch on an `%e`-formatted float: an
exponent of the form `e-0X` loses its leading zero (so `1e-07` becomes
`1e-7`). -/
def jsonCleanExp (s : String) : String :=
  let b := s.data
  let n := b.length
  if 4 ≤ n ∧ b.getD (n - 4) ' ' = 'e' ∧ b.getD (n - 3) ' ' = '-'
      ∧ b.getD (n - 2) ' ' = '0' then
    (b.take (n - 2) ++ [b.getD (n - 1) ' ']).asString
  else s

/-- `encoding/json`'s encoding of a `float64`: the `%e` form (with the
`e-0X` cleanup) when the magnitude is non-zero and below `1e-6` or at
least `1e21` — in decimal terms `dp ≤ -6` or `22 ≤ dp` — and the `%f`
form otherwise. -/
def jsonFormatFloat (f : GoFloat) : String :=
  (if f.neg then "-" else "")
    ++ (if f.digits.isEmpty then "0"
        else if f.dp ≤ -6 ∨ 22 ≤ f.dp then jsonCleanExp (formatSci f.digits (f.dp - 1))
        else formatFixed f.digits f.dp)

/-- The character alphabet of a formatted float: digits, the signs,
the decimal point and the exponent marker — in particular never a
thousands separator. -/
def goFloatChar (c : Char) : Bool :=
  c.isDigit || c == '-' || c == '.' || c == 'e' || c == '+'

/-- A parsed YAML value as decoded into a Go `interface{}`. -/
inductive YamlValue where
  | vnull
  | vstr (s : String)
  | vbool (b : Bool)
  | vint (n : Int)
  | vfloat (f : GoFloat)
  | vlist (xs : List YamlValue)
  | vmap (kvs : List (String × YamlValue))

/-- The Go test `input.Default == nil`. -/
def YamlValue.isNull : YamlValue → Bool
  | .vnull => true
  | _ => false

/-- Escaping of one character as performed by `encoding/json`
(`Marshal` uses HTML escaping, so `<`, `>`, `&` become unicode
escapes). -/
def jsonEscapeChar (c : Char) : String :=
  if c = '"' then "\\\""
  else if c = '\\' then "\\\\"
  else if c = '<' then "\\u003c"
  else if c = '>' then "\\u003e"
  else if c = '&' then "\\u0026"
  else if c = '\n' then "\\n"
  else if c = '\r' then "\\r"
  else if c = '\t' then "\\t"
  else if c.toNat < 0x20 then
    "\\u00" ++ String.singleton (Nat.digitChar (c.toNat / 16))
      ++ String.singleton (Nat.digitChar (c.toNat % 16))
  else String.singleton c

/-- A JSON string literal, as produced by `encoding/json` for a Go
string. -/
def jsonQuote (s : String) : String :=
  "\"" ++ String.join (s.data.map jsonEscapeChar) ++ "\""

/-- Key order on (key, rendered value) pairs used by the JSON map
serialization. -/
def pairKeyLe (a b : String × String) : Prop := a.1 ≤ b.1

instance : DecidableRel pairKeyLe := fun a b =>
  inferInstanceAs (Decidable (a.1 ≤ b.1))

/-- `encoding/json` serializes a `map[string]interface{}` with its keys
sorted in ascending order.  Each map entry is rendered to a
(key, rendered value) pair first; the pairs are then put in ascending
key order.  Since the ordering only looks at keys this renders entries
in exactly the ascending-key order used by the Go library. -/
def sortPairsByKey (ps : List (String × String)) : List (String × String) :=
  List.insertionSort pairKeyLe ps

mutual
/-- Compact JSON serialization of a decoded YAML value, as produced by
`json.Marshal` in `formatDefault`. -/
def jsonMarshal : YamlValue → String
  | .vnull => "null"
  | .vstr s => jsonQuote s
  | .vbool b => if b then "true" else "false"
  | .vint n => n.repr
  | .vfloat f => jsonFormatFloat f
  | .vlist xs => "[" ++ jsonMarshalElems xs ++ "]"
  | .vmap kvs =>
      "\x7b" ++ String.intercalate ","
        ((sortPairsByKey (jsonMarshalPairs kvs)).map
          (fun p => jsonQuote p.1 ++ ":" ++ p.2)) ++ "\x7d"

/-- Comma-separated serialization of the elements of a JSON array. -/
def jsonMarshalElems : List YamlValue → String
  | [] => ""
  | [x] => jsonMarshal x
  | x :: y :: rest => jsonMarshal x ++ "," ++ jsonMarshalElems (y :: rest)

/-- Renders every map entry, keeping its key. -/
def jsonMarshalPairs : List (String × YamlValue) → List (String × String)
  | [] => []
  | kv :: rest => (kv.1, jsonMarshal kv.2) :: jsonMarshalPairs rest
end

/-- `formatDefault` of `main.go`: converts a default value to its string
representation for documentation.  The kinds not matched by the
`string`, `bool` and `[]interface{}`/`map` cases of the Go type
switch — the numeric scalars produced by the decoder — fall through to
its `default:` branch, the generic textual conversion
`fmt.Sprintf("%v", v)`, modelled by `Int.repr` and `goFormatFloat`.
The `json.Marshal` error branch of the source is unreachable here
because `jsonMarshal` is total on `YamlValue`. -/
def formatDefault (val : YamlValue) : String :=
  match val with
  | .vnull => ""
  | .vstr v => v
  | .vbool v => if v then "true" else "false"
  | .vlist xs => "`" ++ jsonMarshal (.vlist xs) ++ "`"
  | .vmap kvs => "`" ++ jsonMarshal (.vmap kvs) ++ "`"
  | .vint n => n.repr
  | .vfloat f => goFormatFloat f


/-- The `Inputs` struct of `main.go`: one entry of `spec.inputs`.  The
`Default` field of the Go struct is an `interface{}`; `vnull` stands for
its `nil` value. -/
structure Inputs where
  description : String
  default : YamlValue

/-- The Go decoding of the raw `default:` field of one input: an absent
key leaves the `interface{}` field `nil`, and an explicit YAML `null`
also decodes to `nil`.  `none` models the absent key, `some v` a present
key holding `v`. -/
def decodeDefault : Option YamlValue → YamlValue
  | none => .vnull
  | some v => v

/-- The `InputData` struct of `main.go`: one row of the rendered inputs
table. -/
structure InputData where
  Name : String
  Description : String
  Required : Bool
  Default : String
deriving DecidableEq

/-- Construction of one `InputData` inside the loop of `parseTemplate`:
`Required: input.Default == nil`, `Default: formatDefault(input.Default)`. -/
def mkInputData (name : String) (input : Inputs) : InputData :=
  { Name := name
    Description := input.description
    Required := input.default.isNull
    Default := formatDefault input.default }

/-- The comparison closure passed to `sort.Slice` in `parseTemplate`:
required entries first, ties broken by ascending name. -/
def inputLess (a b : InputData) : Bool :=
  if a.Required != b.Required then a.Required
  else decide (a.Name < b.Name)

/-- The sorted-order relation realised by `sort.Slice(inputs, less)`:
an element precedes another when the latter is not strictly less than
the former. -/
def inputLe (a b : InputData) : Prop := inputLess b a = false

instance : DecidableRel inputLe := fun a b =>
  inferInstanceAs (Decidable (inputLess b a = false))

/-- The body of `parseTemplate` acting on the decoded `spec.inputs`
mapping: build one `InputData` per entry, then sort with `sort.Slice`
under `inputLess`.  The Go map is modelled as an association list (its
iteration order is arbitrary, which is why the claims quantify over
permutations); `sort.Slice` is modelled as a sort producing a sequence
ordered by `inputLe`, which determines the output uniquely because map
keys are distinct. -/
def collateInputs (pairs : List (String × Inputs)) : List InputData :=
  List.insertionSort inputLe (pairs.map (fun p => mkInputData p.1 p.2))

/-- The `ComponentData` struct of `main.go`. -/
structure ComponentData where
  Name : String
  Description : String
  Inputs : List InputData
deriving DecidableEq

/-- `filepath.Base` for slash-separated paths (Go, unix): empty path
gives ".", trailing slashes are dropped, then everything up to the last
slash is dropped; an all-slash path gives "/". -/
def filepathBase (path : String) : String :=
  if path = "" then "."
  else
    let cs := (path.data.reverse.dropWhile (fun c => c == '/')).reverse
    let base := (cs.reverse.takeWhile (fun c => c != '/')).reverse
    if base = [] then "/" else base.asString

/-- `filepath.Ext` (Go): the suffix beginning at the final dot in the
final slash-separated element of the path; empty if there is no dot. -/
def filepathExt (path : String) : String :=
  let r := path.data.reverse
  let pre := r.takeWhile (fun c => !(c == '/' || c == '.'))
  match r.drop pre.length with
  | '.' :: _ => ('.' :: pre.reverse).asString
  | _ => ""

/-- Component-name derivation in `parseTemplate`:
`base[:len(base)-len(filepath.Ext(base))]` applied to
`filepath.Base(path)`. -/
def componentName (path : String) : String :=
  let base := filepathBase path
  (base.data.take (base.data.length - (filepathExt base).data.length)).asString


/-- The decoded `Config` struct of `main.go`: `spec.inputs` is a Go map
from input name to `Inputs`, modelled as an association list with
distinct keys whose order is the (arbitrary) map iteration order.  A
YAML document without a `spec.inputs` block decodes to a `nil` map,
modelled as the empty list. -/
structure GoConfig where
  inputs : List (String × Inputs)

/-- Outcome of obtaining and decoding one specification document, the
two effects at the head of `parseTemplate` (`os.ReadFile` and
`yaml.Unmarshal`).  `readFailure` carries the error text of the failed
read, `parseFailure` the error text of the failed decode, and
`document` the decoded configuration. -/
inductive DocSource where
  | readFailure (cause : String)
  | parseFailure (cause : String)
  | document (config : GoConfig)

/-- `loadComponentDescription` of `main.go`: reads the optional
`docs/<name>.md` resource (modelled by the lookup function `docs`);
a failed read yields the empty string, a successful read is trimmed. -/
def loadComponentDescription (docs : String → Option String) (name : String) : String :=
  match docs name with
  | none => ""
  | some data => data.trim

/-- `parseTemplate` of `main.go`.  The filesystem reads are supplied as
arguments: `src` is the outcome of reading and decoding the document at
`path`, and `docs` is the `docs/<name>.md` lookup used by
`loadComponentDescription`.  Failures are returned as `Except.error`
with the exact text built by `fmt.Errorf` in the source. -/
def parseTemplate (path : String) (src : DocSource)
    (docs : String → Option String) : Except String ComponentData :=
  match src with
  | .readFailure cause =>
      .error ("error reading YAML file " ++ path ++ ": " ++ cause)
  | .parseFailure cause =>
      .error ("error parsing YAML file " ++ path ++ ": " ++ cause)
  | .document config =>
      let inputs := collateInputs config.inputs
      let name := componentName path
      .ok { Name := name
            Description := loadComponentDescription docs name
            Inputs := inputs }

/-- The `ProjectConfig` struct of `main.go`, decoded from the optional
`.gitlab-component-docs-gen.yml` resource. -/
structure ProjectConfig where
  projectPath : String
  version : String

/-- State of the optional persisted configuration resource
`.gitlab-component-docs-gen.yml`: missing or unreadable (an
`os.ReadFile` error), readable but undecodable (a `yaml.Unmarshal`
error), or readable and decodable. -/
inductive ConfigFileState where
  | absent
  | unreadable
  | unparsable
  | valid (config : ProjectConfig)

/-- `readConfigVersion` of `main.go`: any read or decode failure yields
the empty string; otherwise the `version` field. -/
def readConfigVersion : ConfigFileState → String
  | .absent => ""
  | .unreadable => ""
  | .unparsable => ""
  | .valid config => config.version

/-- `readConfigProjectPath` of `main.go`: any read or decode failure
yields the empty string; otherwise the `project_path` field. -/
def readConfigProjectPath : ConfigFileState → String
  | .absent => ""
  | .unreadable => ""
  | .unparsable => ""
  | .valid config => config.projectPath

/-- `resolveVersion` of `main.go`.  The environment value (`os.Getenv
"VERSION"`, empty when unset), the persisted-config value and the
git-tag auto-detection result (`detectGitVersion`, empty on failure)
are passed as arguments. -/
def resolveVersion (flagValue envVersion configVersion gitVersion : String) : String :=
  if flagValue ≠ "" then flagValue
  else if envVersion ≠ "" then envVersion
  else if configVersion ≠ "" then configVersion
  else if gitVersion ≠ "" then gitVersion
  else "<version>"

/-- `resolveProjectPath` of `main.go`, same shape as `resolveVersion`
with its own sources and placeholder. -/
def resolveProjectPath (flagValue envPath configPath gitPath : String) : String :=
  if flagValue ≠ "" then flagValue
  else if envPath ≠ "" then envPath
  else if configPath ≠ "" then configPath
  else if gitPath ≠ "" then gitPath
  else "<your-project-path>"

/-- `strings.Contains` on character lists. -/
def hasSub (needle : List Char) : List Char → Bool
  | [] => needle.isEmpty
  | c :: rest => needle.isPrefixOf (c :: rest) || hasSub needle rest

/-- `strings.Index` on character lists: position of the first
occurrence of `needle`, or `none`. -/
def findSub (needle : List Char) : List Char → Option Nat
  | [] => if needle.isEmpty then some 0 else none
  | c :: rest =>
      if needle.isPrefixOf (c :: rest) then some 0
      else (findSub needle rest).map (· + 1)

/-- `strings.SplitN(s, sep, 2)` for a non-empty separator: two pieces
around the first occurrence of `sep`, or the whole string alone. -/
def splitN2 (sep s : List Char) : List (List Char) :=
  match findSub sep s with
  | some i => [s.take i, s.drop (i + sep.length)]
  | none => [s]

/-- `strings.TrimSuffix` on character lists. -/
def trimSuffix (suffix s : List Char) : List Char :=
  if suffix.isSuffixOf s then s.take (s.length - suffix.length) else s

/-- `parseGitRemoteURL` of `main.go`: reduce a git remote address to a
`group/.../project` path.  The SSH branch fires when the address
contains both ":" and "@"; otherwise the URL branch fires when it
contains "//"; otherwise the result is empty. -/
def parseGitRemoteURL (remote : String) : String :=
  let r := remote.data
  let ssh : Option (List Char) :=
    if hasSub [':'] r && hasSub ['@'] r then
      let parts := splitN2 [':'] r
      if parts.length = 2 then
        some (trimSuffix ".git".data (parts.getD 1 []))
      else none
    else none
  match ssh with
  | some path => path.asString
  | none =>
    let https : Option (List Char) :=
      if hasSub ['/', '/'] r then
        let parts := splitN2 ['/', '/'] r
        if parts.length = 2 then
          let tail := parts.getD 1 []
          match findSub ['/'] tail with
          | some slashIdx =>
              some (trimSuffix ".git".data (tail.drop (slashIdx + 1)))
          | none => none
        else none
      else none
    match https with
    | some path => path.asString
    | none => ""


/-- Sort key realised by the `sort.Slice` comparison: required entries
(key 0) before optional ones (key 1), then lexicographic name. -/
def inputKey (a : InputData) : Lex (Nat × String) :=
  toLex (if a.Required then 0 else 1, a.Name)

/-- Strict version of the collation order, used to show the sorted
sequence is unique. -/
def inputStrictLt (a b : InputData) : Prop := inputKey a < inputKey b

/-- Modelled from the spec: "Precedence chain: ordered list of value
sources consulted until one yields a non-empty result", with the
placeholder closing the chain.  This is the specification-side
description of `resolveVersion`/`resolveProjectPath`, stated for the
refinement comparison in the precedence claim. -/
def firstNonEmpty (values : List String) (placeholder : String) : String :=
  match values with
  | [] => placeholder
  | v :: rest => if v ≠ "" then v else firstNonEmpty rest placeholder

/-! ### Helper lemmas about the decimal representation -/

theorem toDigitsCore_length_le (b : Nat) :
    ∀ (f n : Nat) (ds : List Char), ds.length ≤ (Nat.toDigitsCore b f n ds).length := by
  intro f
  induction f with
  | zero => intro n ds; simp [Nat.toDigitsCore]
  | succ f ih =>
    intro n ds
    simp only [Nat.toDigitsCore]
    split
    · simp
    · calc ds.length ≤ (Nat.digitChar (n % b) :: ds).length := by simp
        _ ≤ _ := ih _ _

theorem toDigits_ne_nil (b n : Nat) : Nat.toDigits b n ≠ [] := by
  unfold Nat.toDigits
  simp only [Nat.toDigitsCore]
  split
  · simp
  · intro h
    have hle := toDigitsCore_length_le b n (n / b) [Nat.digitChar (n % b)]
    rw [h] at hle
    simp at hle

theorem nat_repr_ne_empty (n : Nat) : Nat.repr n ≠ "" := by
  unfold Nat.repr
  intro h
  exact toDigits_ne_nil 10 n (by simpa [List.asString_eq] using h)

theorem int_repr_ne_empty (n : Int) : n.repr ≠ "" := by
  cases n with
  | ofNat m => simpa [Int.repr] using nat_repr_ne_empty m
  | negSucc m =>
    intro h
    have hdata := congrArg String.data h
    simp [Int.repr] at hdata

theorem digitChar_isDigit : ∀ m : Nat, m < 10 → (Nat.digitChar m).isDigit = true := by
  decide

theorem toDigitsCore_all_digits :
    ∀ (f n : Nat) (ds : List Char), ds.all Char.isDigit = true →
      (Nat.toDigitsCore 10 f n ds).all Char.isDigit = true := by
  intro f
  induction f with
  | zero => intro n ds h; simpa [Nat.toDigitsCore] using h
  | succ f ih =>
    intro n ds h
    have hd : (Nat.digitChar (n % 10)).isDigit = true :=
      digitChar_isDigit _ (Nat.mod_lt n (by norm_num))
    simp only [Nat.toDigitsCore]
    split
    · simp [List.all_cons, hd, h]
    · exact ih _ _ (by simp [List.all_cons, hd, h])

theorem nat_repr_all_digits (n : Nat) : (Nat.repr n).data.all Char.isDigit = true := by
  unfold Nat.repr Nat.toDigits
  exact toDigitsCore_all_digits _ _ _ rfl

/-! ### Helper lemmas about the float formatters -/

theorem asString_data (l : List Char) : (List.asString l).data = l := rfl

theorem string_append_eq_empty {a b : String} (h : a ++ b = "") : a = "" ∧ b = "" := by
  have hdata := congrArg String.data h
  rw [String.data_append] at hdata
  have hsplit := List.append_eq_nil.mp hdata
  exact ⟨String.toList_inj.mp hsplit.1, String.toList_inj.mp hsplit.2⟩

theorem formatSci_ne_empty (ds : List (Fin 10)) (exp : Int) :
    formatSci ds exp ≠ "" := by
  intro h
  rw [formatSci.eq_def] at h
  have h1 := (string_append_eq_empty (string_append_eq_empty h).1).2
  have hdata := congrArg String.data h1
  simp at hdata

theorem formatFixed_ne_empty (ds : List (Fin 10)) (dp : Int) (hds : ds ≠ []) :
    formatFixed ds dp ≠ "" := by
  intro h
  rw [formatFixed] at h
  split at h
  · have h1 := (string_append_eq_empty (string_append_eq_empty h).1).1
    have hdata := congrArg String.data h1
    simp at hdata
  · split at h
    · have h1 := (string_append_eq_empty h).1
      have hdata := congrArg String.data h1
      rw [asString_data] at hdata
      have : ds = [] := by
        cases ds with
        | nil => rfl
        | cons a rest => simp [digitsToChars] at hdata
      exact hds this
    · have h1 := (string_append_eq_empty (string_append_eq_empty h).1).2
      have hdata := congrArg String.data h1
      simp at hdata

theorem goFormatFloat_ne_empty (f : GoFloat) : goFormatFloat f ≠ "" := by
  intro h
  rw [goFormatFloat] at h
  have hbody := (string_append_eq_empty h).2
  by_cases hds : f.digits.isEmpty
  · rw [if_pos hds] at hbody
    have hdata := congrArg String.data hbody
    simp at hdata
  · rw [if_neg hds] at hbody
    have hne : f.digits ≠ [] := by
      intro hc
      exact hds (by simp [hc])
    split at hbody
    · exact formatSci_ne_empty _ _ hbody
    · exact formatFixed_ne_empty _ _ hne hbody

theorem all_goFloatChar_of_all_isDigit {l : List Char}
    (h : l.all Char.isDigit = true) : l.all goFloatChar = true := by
  rw [List.all_eq_true] at h ⊢
  intro c hc
  simp [goFloatChar, h c hc]

theorem digitsToChars_all_goFloatChar (ds : List (Fin 10)) :
    (digitsToChars ds).all goFloatChar = true := by
  rw [List.all_eq_true]
  intro c hc
  simp only [digitsToChars] at hc
  obtain ⟨d, hd, rfl⟩ := List.mem_map.mp hc
  simp [goFloatChar, digitChar_isDigit d.val d.isLt]

theorem natRepr_all_goFloatChar (a : Nat) :
    (Nat.repr a).data.all goFloatChar = true :=
  all_goFloatChar_of_all_isDigit (nat_repr_all_digits a)

theorem formatExpPart_all_goFloatChar (exp : Int) :
    (formatExpPart exp).data.all goFloatChar = true := by
  rw [formatExpPart]
  simp only [String.data_append, List.all_append, Bool.and_eq_true]
  constructor
  · split <;> decide
  · split
    · simp only [String.data_append, List.all_append, Bool.and_eq_true]
      exact ⟨by decide, natRepr_all_goFloatChar _⟩
    · exact natRepr_all_goFloatChar _

theorem formatSci_all_goFloatChar (ds : List (Fin 10)) (exp : Int) :
    (formatSci ds exp).data.all goFloatChar = true := by
  rw [formatSci.eq_def]
  simp only [String.data_append, List.all_append, Bool.and_eq_true]
  refine ⟨⟨?_, by decide⟩, formatExpPart_all_goFloatChar exp⟩
  cases ds with
  | nil => decide
  | cons d rest =>
    simp only [String.data_append, List.all_append, Bool.and_eq_true]
    constructor
    · have := digitChar_isDigit d.val d.isLt
      simp [String.singleton, goFloatChar, this]
    · split
      · decide
      · simp only [String.data_append, List.all_append, Bool.and_eq_true]
        exact ⟨by decide, by rw [asString_data]; exact digitsToChars_all_goFloatChar rest⟩

theorem replicate_zero_all_goFloatChar (k : Nat) :
    (List.replicate k '0').all goFloatChar = true := by
  rw [List.all_eq_true]
  intro c hc
  rw [List.eq_of_mem_replicate hc]
  decide

theorem formatFixed_all_goFloatChar (ds : List (Fin 10)) (dp : Int) :
    (formatFixed ds dp).data.all goFloatChar = true := by
  rw [formatFixed]
  split
  · simp only [String.data_append, List.all_append, Bool.and_eq_true, asString_data]
    exact ⟨⟨by decide, replicate_zero_all_goFloatChar _⟩, digitsToChars_all_goFloatChar ds⟩
  · split
    · simp only [String.data_append, List.all_append, Bool.and_eq_true, asString_data]
      exact ⟨digitsToChars_all_goFloatChar ds, replicate_zero_all_goFloatChar _⟩
    · simp only [String.data_append, List.all_append, Bool.and_eq_true, asString_data]
      exact ⟨⟨digitsToChars_all_goFloatChar _, by decide⟩, digitsToChars_all_goFloatChar _⟩

theorem goFormatFloat_all_goFloatChar (f : GoFloat) :
    (goFormatFloat f).data.all goFloatChar = true := by
  rw [goFormatFloat]
  simp only [String.data_append, List.all_append, Bool.and_eq_true]
  constructor
  · split <;> decide
  · split
    · decide
    · split
      · exact formatSci_all_goFloatChar _ _
      · exact formatFixed_all_goFloatChar _ _

theorem formatDefault_eq_empty_iff (d : YamlValue) :
    formatDefault d = "" ↔ d = .vnull ∨ d = .vstr "" := by
  cases d with
  | vnull => simp [formatDefault]
  | vstr s => simp [formatDefault]
  | vbool b => cases b <;> simp [formatDefault]
  | vint n => simpa [formatDefault] using int_repr_ne_empty n
  | vfloat f => simpa [formatDefault] using goFormatFloat_ne_empty f
  | vlist xs =>
    simp only [formatDefault]
    constructor
    · intro h
      have hdata := congrArg String.data h
      simp at hdata
    · intro h
      rcases h with h | h <;> exact absurd h (by intro hc; cases hc)
  | vmap kvs =>
    simp only [formatDefault]
    constructor
    · intro h
      have hdata := congrArg String.data h
      simp at hdata
    · intro h
      rcases h with h | h <;> exact absurd h (by intro hc; cases hc)

/-! ### C1 -/

/-- C1: for every parameter spec, the derived `Required` flag is true
exactly when the default value is absent (the decoded `default` field is
`nil`); an absent default also yields an empty `Default` display
string, and any present (non-nil) default — including an explicit empty
string and an explicit `false` — yields `Required = false`. -/
theorem required_iff_default_absent (name : String) (input : Inputs) :
    ((mkInputData name input).Required = true ↔ input.default = .vnull)
    ∧ (input.default = .vnull → (mkInputData name input).Default = "")
    ∧ (input.default ≠ .vnull → (mkInputData name input).Required = false) := by
  obtain ⟨desc, d⟩ := input
  refine ⟨?_, ?_, ?_⟩
  · cases d <;> simp [mkInputData, YamlValue.isNull]
  · intro h
    cases h
    rfl
  · intro h
    cases d with
    | vnull => exact absurd rfl h
    | vstr s => rfl
    | vbool b => rfl
    | vint n => rfl
    | vfloat f => rfl
    | vlist xs => rfl
    | vmap kvs => rfl

/-- Witness for C1 at concrete inputs: an explicit empty string and an
explicit `false` are present defaults (`Required = false`), an absent
default yields an empty display string. -/
theorem required_iff_default_absent_witness :
    (mkInputData "stage" ⟨"the stage", .vstr ""⟩).Required = false
    ∧ (mkInputData "flag" ⟨"a flag", .vbool false⟩).Required = false
    ∧ (mkInputData "app_name" ⟨"the app", .vnull⟩).Default = "" :=
  ⟨(required_iff_default_absent "stage" ⟨"the stage", .vstr ""⟩).2.2 (by intro h; cases h),
   (required_iff_default_absent "flag" ⟨"a flag", .vbool false⟩).2.2 (by intro h; cases h),
   (required_iff_default_absent "app_name" ⟨"the app", .vnull⟩).2.1 rfl⟩

/-! ### C6 -/

/-- C6 as stated is false: an explicit empty-string default produces an
optional parameter (`Required = false`) whose `Default` display string
is empty, so "displayDefault is empty iff required" fails in the
right-to-left direction. -/
theorem display_empty_iff_required_counterexample :
    ¬ (∀ (name : String) (input : Inputs),
        ((mkInputData name input).Default = "" ↔ (mkInputData name input).Required = true)) := by
  intro h
  have hreq := (h "stage" ⟨"the stage", .vstr ""⟩).mp rfl
  simp [mkInputData, YamlValue.isNull] at hreq

/-- C6 (amended): a required parameter always has an empty `Default`
display string, and an empty display string implies the parameter is
required or its default is an explicit empty string. -/
theorem display_empty_of_required (name : String) (input : Inputs) :
    ((mkInputData name input).Required = true → (mkInputData name input).Default = "")
    ∧ ((mkInputData name input).Default = "" →
        (mkInputData name input).Required = true ∨ input.default = .vstr "") := by
  constructor
  · intro h
    have hnull : input.default = .vnull := by
      obtain ⟨desc, d⟩ := input
      cases d <;> simp_all [mkInputData, YamlValue.isNull]
    show formatDefault input.default = ""
    rw [hnull]
    rfl
  · intro h
    have hcases := (formatDefault_eq_empty_iff input.default).mp h
    rcases hcases with hc | hc
    · left
      show input.default.isNull = true
      rw [hc]
      rfl
    · right
      exact hc

/-- Witness for the amended C6 at concrete inputs. -/
theorem display_empty_of_required_witness :
    (mkInputData "app_name" ⟨"the app", .vnull⟩).Default = ""
    ∧ ((mkInputData "stage" ⟨"the stage", .vstr ""⟩).Required = true
        ∨ (Inputs.mk "the stage" (.vstr "")).default = .vstr "") :=
  ⟨(display_empty_of_required "app_name" ⟨"the app", .vnull⟩).1 rfl,
   (display_empty_of_required "stage" ⟨"the stage", .vstr ""⟩).2 rfl⟩

/-! ### C8 -/

/-- C8 as stated is false for floating-point defaults: the program
formats the numeric default 0.00001 (shortest decimal digits `1`,
decimal point position `-4`) in exponent form, `1e-05`, which is not a
plain decimal textual form — it contains the exponent marker `e`. -/
theorem numeric_decimal_display_counterexample :
    formatDefault (.vfloat ⟨false, [1], -4⟩) = "1e-05"
    ∧ ((formatDefault (.vfloat ⟨false, [1], -4⟩)).data.all
        (fun c => c.isDigit || c == '-' || c == '.')) = false :=
  ⟨rfl, by decide⟩

/-- C8 (amended): normalization is total and never fails extraction.
A boolean default displays as the lowercase literal; the kinds not
matched by the string, bool, list and map cases of the type switch fall
through to the generic `%v` conversion: an integer default displays as
its plain decimal form (digits only for naturals, a single leading
minus sign for negatives, never a thousands separator), and a float
default displays in Go's shortest round-trip form — plain decimal when
the decimal exponent lies in `[-4, 6)` (so 3.14 displays as `3.14`, the
repository's own test case), exponent form otherwise (so 0.00001
displays as `1e-05`) — drawn from digit, sign, point and exponent
characters only (so again no thousands separator), and never empty. -/
theorem format_default_total (b : Bool) (n : Int) (m : Nat) (f : GoFloat)
    (path : String) (config : GoConfig) (docs : String → Option String) :
    (formatDefault (.vbool true) = "true")
    ∧ (formatDefault (.vbool false) = "false")
    ∧ (formatDefault (.vbool b) = if b then "true" else "false")
    ∧ (formatDefault (.vint n) = n.repr)
    ∧ formatDefault (.vint n) ≠ ""
    ∧ ((formatDefault (.vint (Int.ofNat m))).data.all Char.isDigit = true)
    ∧ ((formatDefault (.vint n)).data.all (fun c => c.isDigit || c == '-') = true)
    ∧ (formatDefault (.vfloat f) = goFormatFloat f)
    ∧ formatDefault (.vfloat f) ≠ ""
    ∧ ((formatDefault (.vfloat f)).data.all goFloatChar = true)
    ∧ (formatDefault (.vfloat ⟨false, [3, 1, 4], 1⟩) = "3.14")
    ∧ (formatDefault (.vfloat ⟨false, [1], -4⟩) = "1e-05")
    ∧ (∃ comp, parseTemplate path (.document config) docs = .ok comp) := by
  refine ⟨rfl, rfl, rfl, rfl, int_repr_ne_empty n, ?_, ?_, rfl,
    goFormatFloat_ne_empty f, goFormatFloat_all_goFloatChar f, rfl, rfl, ⟨_, rfl⟩⟩
  · exact nat_repr_all_digits m
  · show (Int.repr n).data.all (fun c => c.isDigit || c == '-') = true
    cases n with
    | ofNat k =>
      have hall := nat_repr_all_digits k
      simp only [Int.repr, List.all_eq_true] at hall ⊢
      intro c hc
      simp [hall c hc]
    | negSucc k =>
      have hall := nat_repr_all_digits (k + 1)
      simp only [Int.repr, String.data_append, List.all_eq_true] at hall ⊢
      intro c hc
      rcases List.mem_append.mp hc with hc | hc
      · have hc2 : c ∈ ['-'] := hc
        have : c = '-' := by simpa using hc2
        simp [this]
      · simp [hall c hc]

/-- Witness for the amended C8 at concrete inputs, among them the
repository test's float default 3.14. -/
theorem format_default_total_witness :
    formatDefault (.vint (-7)) ≠ ""
    ∧ formatDefault (.vfloat ⟨false, [3, 1, 4], 1⟩) ≠ ""
    ∧ (∃ comp, parseTemplate "templates/build.yml"
        (.document ⟨[("app_name", ⟨"Application name", .vnull⟩)]⟩)
        (fun _ => none) = .ok comp) :=
  ⟨(format_default_total true (-7) 42 ⟨false, [3, 1, 4], 1⟩ "templates/build.yml"
      ⟨[]⟩ (fun _ => none)).2.2.2.2.1,
   (format_default_total true (-7) 42 ⟨false, [3, 1, 4], 1⟩ "templates/build.yml"
      ⟨[]⟩ (fun _ => none)).2.2.2.2.2.2.2.2.1,
   (format_default_total true (-7) 42 ⟨false, [3, 1, 4], 1⟩ "templates/build.yml"
      ⟨[("app_name", ⟨"Application name", .vnull⟩)]⟩
      (fun _ => none)).2.2.2.2.2.2.2.2.2.2.2.2⟩

/-! ### C9 -/

/-- C9: whatever the state of the persisted configuration resource —
absent, unreadable, or with unparsable content — the two config readers
return the empty string rather than an error, and a non-empty result
can only come from a readable, decodable resource. -/
theorem read_config_failure_empty (st : ConfigFileState) :
    readConfigVersion .absent = ""
    ∧ readConfigVersion .unreadable = ""
    ∧ readConfigVersion .unparsable = ""
    ∧ readConfigProjectPath .absent = ""
    ∧ readConfigProjectPath .unreadable = ""
    ∧ readConfigProjectPath .unparsable = ""
    ∧ (readConfigVersion st ≠ "" →
        ∃ config, st = .valid config ∧ readConfigVersion st = config.version)
    ∧ (readConfigProjectPath st ≠ "" →
        ∃ config, st = .valid config ∧ readConfigProjectPath st = config.projectPath) := by
  refine ⟨rfl, rfl, rfl, rfl, rfl, rfl, ?_, ?_⟩ <;>
    cases st <;> simp [readConfigVersion, readConfigProjectPath]

/-- Witness for C9: a valid config resource carrying version "2.0.0"
and project path "group/project". -/
theorem read_config_failure_empty_witness :
    (∃ config, ConfigFileState.valid ⟨"group/project", "2.0.0"⟩ = .valid config
        ∧ readConfigVersion (.valid ⟨"group/project", "2.0.0"⟩) = config.version)
    ∧ (∃ config, ConfigFileState.valid ⟨"group/project", "2.0.0"⟩ = .valid config
        ∧ readConfigProjectPath (.valid ⟨"group/project", "2.0.0"⟩) = config.projectPath) :=
  ⟨(read_config_failure_empty (.valid ⟨"group/project", "2.0.0"⟩)).2.2.2.2.2.2.1 (by decide),
   (read_config_failure_empty (.valid ⟨"group/project", "2.0.0"⟩)).2.2.2.2.2.2.2 (by decide)⟩

/-! ### C10 -/

/-- C10: an explicit `null` default in the parsed document decodes to
the same `nil` value as an absent default, so the resulting parameter
is identical in both cases: required, with an empty display string. -/
theorem null_default_eq_absent (name desc : String) :
    mkInputData name ⟨desc, decodeDefault none⟩
      = mkInputData name ⟨desc, decodeDefault (some .vnull)⟩
    ∧ (mkInputData name ⟨desc, decodeDefault (some .vnull)⟩).Required = true
    ∧ (mkInputData name ⟨desc, decodeDefault (some .vnull)⟩).Default = "" :=
  ⟨rfl, rfl, rfl⟩

/-! ### C3 -/

/-- C3: both resolvers return the first non-empty value of the chain
explicit flag, environment, persisted config, auto-detection, with the
kind-specific placeholder closing the chain; the result is never empty;
the three-layer example resolves as the spec describes. -/
theorem resolve_precedence (flagValue envValue configValue gitValue : String) :
    (resolveVersion flagValue envValue configValue gitValue
        = firstNonEmpty [flagValue, envValue, configValue, gitValue] "<version>")
    ∧ (resolveProjectPath flagValue envValue configValue gitValue
        = firstNonEmpty [flagValue, envValue, configValue, gitValue] "<your-project-path>")
    ∧ resolveVersion flagValue envValue configValue gitValue ≠ ""
    ∧ resolveProjectPath flagValue envValue configValue gitValue ≠ ""
    ∧ resolveVersion "1.0.0" "1.5.0" "2.0.0" gitValue = "1.0.0"
    ∧ resolveVersion "" "1.5.0" "2.0.0" gitValue = "1.5.0"
    ∧ resolveVersion "" "" "2.0.0" gitValue = "2.0.0"
    ∧ resolveVersion "" "" "" gitValue = (if gitValue ≠ "" then gitValue else "<version>") := by
  refine ⟨?_, ?_, ?_, ?_, rfl, rfl, rfl, rfl⟩ <;>
    simp only [resolveVersion, resolveProjectPath, firstNonEmpty] <;>
    split_ifs <;> simp_all

/-- Witness for C3 at a concrete chain. -/
theorem resolve_precedence_witness :
    resolveVersion "1.0.0" "1.5.0" "2.0.0" "" ≠ ""
    ∧ resolveProjectPath "" "" "" "" ≠ "" :=
  ⟨(resolve_precedence "1.0.0" "1.5.0" "2.0.0" "").2.2.1,
   (resolve_precedence "" "" "" "").2.2.2.1⟩

/-! ### C4 -/

/-- C4: extraction of one document fails exactly when the document
bytes could not be read or could not be decoded; the error message
carries the source path and the underlying cause verbatim; a decoded
document never fails, and one without a parameters block yields a
component record with an empty parameter sequence. -/
theorem extract_error_iff (path cause : String) (src : DocSource)
    (docs : String → Option String) :
    ((∃ e, parseTemplate path src docs = .error e)
        ↔ (∃ c, src = .readFailure c ∨ src = .parseFailure c))
    ∧ (parseTemplate path (.readFailure cause) docs
        = .error ("error reading YAML file " ++ path ++ ": " ++ cause))
    ∧ (parseTemplate path (.parseFailure cause) docs
        = .error ("error parsing YAML file " ++ path ++ ": " ++ cause))
    ∧ (∀ config, parseTemplate path (.document config) docs
        = .ok { Name := componentName path
                Description := loadComponentDescription docs (componentName path)
                Inputs := collateInputs config.inputs })
    ∧ (parseTemplate path (.document ⟨[]⟩) docs
        = .ok { Name := componentName path
                Description := loadComponentDescription docs (componentName path)
                Inputs := [] }) := by
  refine ⟨?_, rfl, rfl, fun config => rfl, rfl⟩
  cases src with
  | readFailure c => simp [parseTemplate]
  | parseFailure c => simp [parseTemplate]
  | document config => simp [parseTemplate]

/-- Witness for C4: a concrete read failure and a concrete document
with no parameters block. -/
theorem extract_error_iff_witness :
    (∃ c, DocSource.readFailure "no such file" = .readFailure c
        ∨ DocSource.readFailure "no such file" = .parseFailure c)
    ∧ parseTemplate "templates/simple.yml" (.document ⟨[]⟩) (fun _ => none)
        = .ok { Name := "simple", Description := "", Inputs := [] } :=
  ⟨(extract_error_iff "templates/simple.yml" "no such file"
      (.readFailure "no such file") (fun _ => none)).1.mp ⟨_, rfl⟩,
   (extract_error_iff "templates/simple.yml" "no such file"
      (.document ⟨[]⟩) (fun _ => none)).2.2.2.2⟩

/-! ### C2 -/

theorem inputLess_iff (a b : InputData) :
    inputLess a b = true ↔ inputKey a < inputKey b := by
  cases ha : a.Required <;> cases hb : b.Required <;>
    simp [inputLess, inputKey, Prod.Lex.lt_iff, ha, hb]

theorem inputLe_iff (a b : InputData) :
    inputLe a b ↔ inputKey a ≤ inputKey b := by
  unfold inputLe
  rw [← not_lt, ← inputLess_iff b a]
  simp

theorem inputLe_total : ∀ a b : InputData, inputLe a b ∨ inputLe b a := by
  intro a b
  rw [inputLe_iff, inputLe_iff]
  exact le_total _ _

theorem inputLe_trans : ∀ a b c : InputData, inputLe a b → inputLe b c → inputLe a c := by
  intro a b c hab hbc
  rw [inputLe_iff] at *
  exact le_trans hab hbc

theorem inputStrictLt_iff (a b : InputData) :
    inputStrictLt a b ↔
      (a.Required = true ∧ b.Required = false)
      ∨ (a.Required = b.Required ∧ a.Name < b.Name) := by
  cases ha : a.Required <;> cases hb : b.Required <;>
    simp [inputStrictLt, inputKey, Prod.Lex.lt_iff, ha, hb]

theorem collate_sorted_key (pairs : List (String × Inputs))
    (h : (pairs.map Prod.fst).Nodup) :
    (collateInputs pairs).Pairwise inputStrictLt := by
  haveI : IsTotal InputData inputLe := ⟨inputLe_total⟩
  haveI : IsTrans InputData inputLe := ⟨inputLe_trans⟩
  have hsorted : (collateInputs pairs).Pairwise inputLe :=
    List.sorted_insertionSort inputLe _
  have hperm : (collateInputs pairs).Perm (pairs.map (fun p => mkInputData p.1 p.2)) :=
    List.perm_insertionSort inputLe _
  have hname0 : pairs.Pairwise (fun p q => p.1 ≠ q.1) := List.pairwise_map.mp h
  have hname1 : (pairs.map (fun p => mkInputData p.1 p.2)).Pairwise
      (fun a b => a.Name ≠ b.Name) := by
    rw [List.pairwise_map]
    exact hname0
  have hname : (collateInputs pairs).Pairwise (fun a b => a.Name ≠ b.Name) :=
    (hperm.pairwise_iff (fun hxy => Ne.symm hxy)).mpr hname1
  refine (hsorted.and hname).imp ?_
  rintro a b ⟨hle, hne⟩
  have hkeyne : inputKey a ≠ inputKey b := by
    intro hk
    unfold inputKey at hk
    exact hne (congrArg Prod.snd (toLex_inj.mp hk))
  exact lt_of_le_of_ne ((inputLe_iff a b).mp hle) hkeyne

/-- C2: collation keeps exactly the entries of the input mapping (an
empty mapping gives an empty sequence), orders them with required
parameters before optional ones and equal required status broken by
ascending name, and — because that order is total on the distinct names
of a mapping — produces the same sequence for any iteration order of
the input mapping. -/
theorem collate_deterministic_order (pairs pairs2 : List (String × Inputs)) :
    (collateInputs pairs).Perm (pairs.map (fun p => mkInputData p.1 p.2))
    ∧ collateInputs [] = []
    ∧ ((pairs.map Prod.fst).Nodup →
        (collateInputs pairs).Pairwise (fun a b =>
          (a.Required = true ∧ b.Required = false)
          ∨ (a.Required = b.Required ∧ a.Name < b.Name)))
    ∧ (pairs.Perm pairs2 → (pairs.map Prod.fst).Nodup →
        collateInputs pairs = collateInputs pairs2) := by
  refine ⟨List.perm_insertionSort inputLe _, rfl, ?_, ?_⟩
  · intro h
    exact (collate_sorted_key pairs h).imp (fun hab => (inputStrictLt_iff _ _).mp hab)
  · intro hperm hnodup
    have hnodup2 : (pairs2.map Prod.fst).Nodup :=
      ((hperm.map Prod.fst).nodup_iff).mp hnodup
    have hp : (collateInputs pairs).Perm (collateInputs pairs2) :=
      (List.perm_insertionSort inputLe _).trans
        ((hperm.map _).trans (List.perm_insertionSort inputLe _).symm)
    haveI : IsAntisymm InputData inputStrictLt :=
      ⟨fun a b hab hba =>
        absurd (lt_trans (show inputKey a < inputKey b from hab)
          (show inputKey b < inputKey a from hba)) (lt_irrefl _)⟩
    exact List.eq_of_perm_of_sorted hp
      (collate_sorted_key pairs hnodup) (collate_sorted_key pairs2 hnodup2)

/-- Witness for C2: the two-parameter component of the spec's
end-to-end scenario, collated from both iteration orders of its
mapping. -/
theorem collate_deterministic_order_witness :
    (collateInputs
        [("stage", ⟨"Pipeline stage", .vstr "build"⟩),
         ("app_name", ⟨"Application name", .vnull⟩)]).Pairwise (fun a b =>
          (a.Required = true ∧ b.Required = false)
          ∨ (a.Required = b.Required ∧ a.Name < b.Name))
    ∧ collateInputs
        [("stage", ⟨"Pipeline stage", .vstr "build"⟩),
         ("app_name", ⟨"Application name", .vnull⟩)]
      = collateInputs
        [("app_name", ⟨"Application name", .vnull⟩),
         ("stage", ⟨"Pipeline stage", .vstr "build"⟩)] :=
  ⟨(collate_deterministic_order
      [("stage", ⟨"Pipeline stage", .vstr "build"⟩),
       ("app_name", ⟨"Application name", .vnull⟩)] []).2.2.1 (by decide),
   (collate_deterministic_order
      [("stage", ⟨"Pipeline stage", .vstr "build"⟩),
       ("app_name", ⟨"Application name", .vnull⟩)]
      [("app_name", ⟨"Application name", .vnull⟩),
       ("stage", ⟨"Pipeline stage", .vstr "build"⟩)]).2.2.2
    (List.Perm.swap ("app_name", Inputs.mk "Application name" .vnull)
      ("stage", Inputs.mk "Pipeline stage" (.vstr "build")) [])
    (by decide)⟩

/-! ### C7 -/

theorem jsonMarshalPairs_eq_map (kvs : List (String × YamlValue)) :
    jsonMarshalPairs kvs = kvs.map (fun kv => (kv.1, jsonMarshal kv.2)) := by
  induction kvs with
  | nil => rfl
  | cons kv rest ih => simp [jsonMarshalPairs, ih]

theorem sortPairs_sorted_strict (ps : List (String × String))
    (h : (ps.map Prod.fst).Nodup) :
    (sortPairsByKey ps).Pairwise (fun a b => a.1 < b.1) := by
  haveI : IsTotal (String × String) pairKeyLe := ⟨fun a b => le_total a.1 b.1⟩
  haveI : IsTrans (String × String) pairKeyLe := ⟨fun a b c h1 h2 => le_trans h1 h2⟩
  have hsorted : (sortPairsByKey ps).Pairwise pairKeyLe :=
    List.sorted_insertionSort pairKeyLe ps
  have hperm : (sortPairsByKey ps).Perm ps := List.perm_insertionSort pairKeyLe ps
  have hfst0 : ps.Pairwise (fun a b => a.1 ≠ b.1) := List.pairwise_map.mp h
  have hfst : (sortPairsByKey ps).Pairwise (fun a b => a.1 ≠ b.1) :=
    (hperm.pairwise_iff (fun hxy => Ne.symm hxy)).mpr hfst0
  refine (hsorted.and hfst).imp ?_
  rintro a b ⟨hle, hne⟩
  exact lt_of_le_of_ne hle hne

/-- C7: structured defaults are rendered through a deterministic
compact JSON serialization wrapped in backticks; for mappings the
serialization sorts keys, so any two iteration orders of the same
mapping give byte-identical output; the spec's one-element rules list
renders to the exact backtick-delimited conditional text. -/
theorem structured_default_deterministic (xs : List YamlValue)
    (kvs kvs2 : List (String × YamlValue)) :
    (formatDefault (.vlist xs) = "`" ++ jsonMarshal (.vlist xs) ++ "`")
    ∧ (formatDefault (.vmap kvs) = "`" ++ jsonMarshal (.vmap kvs) ++ "`")
    ∧ (kvs.Perm kvs2 → (kvs.map Prod.fst).Nodup →
        formatDefault (.vmap kvs) = formatDefault (.vmap kvs2))
    ∧ (formatDefault (.vlist [.vmap [("if", .vstr "$CI_COMMIT_BRANCH == \"main\"")]])
        = "`[\x7b\"if\":\"$CI_COMMIT_BRANCH == \\\"main\\\"\"\x7d]`") := by
  refine ⟨rfl, rfl, ?_, rfl⟩
  intro hperm hnodup
  have hnodup2 : (kvs2.map Prod.fst).Nodup :=
    ((hperm.map Prod.fst).nodup_iff).mp hnodup
  have hrenderperm : (jsonMarshalPairs kvs).Perm (jsonMarshalPairs kvs2) := by
    rw [jsonMarshalPairs_eq_map, jsonMarshalPairs_eq_map]
    exact hperm.map _
  have hfst : ((jsonMarshalPairs kvs).map Prod.fst).Nodup := by
    rw [jsonMarshalPairs_eq_map, List.map_map]
    simpa [Function.comp_def] using hnodup
  have hfst2 : ((jsonMarshalPairs kvs2).map Prod.fst).Nodup := by
    rw [jsonMarshalPairs_eq_map, List.map_map]
    simpa [Function.comp_def] using hnodup2
  have h1 := sortPairs_sorted_strict _ hfst
  have h2 := sortPairs_sorted_strict _ hfst2
  have hp : (sortPairsByKey (jsonMarshalPairs kvs)).Perm
      (sortPairsByKey (jsonMarshalPairs kvs2)) :=
    (List.perm_insertionSort pairKeyLe _).trans
      (hrenderperm.trans (List.perm_insertionSort pairKeyLe _).symm)
  haveI : IsAntisymm (String × String) (fun a b : String × String => a.1 < b.1) :=
    ⟨fun a b hab hba => absurd (lt_trans hab hba) (lt_irrefl _)⟩
  have hs : sortPairsByKey (jsonMarshalPairs kvs)
      = sortPairsByKey (jsonMarshalPairs kvs2) :=
    List.eq_of_perm_of_sorted hp h1 h2
  have e1 : formatDefault (.vmap kvs)
      = "`" ++ ("\x7b" ++ String.intercalate ","
          ((sortPairsByKey (jsonMarshalPairs kvs)).map
            (fun p => jsonQuote p.1 ++ ":" ++ p.2)) ++ "\x7d") ++ "`" := rfl
  have e2 : formatDefault (.vmap kvs2)
      = "`" ++ ("\x7b" ++ String.intercalate ","
          ((sortPairsByKey (jsonMarshalPairs kvs2)).map
            (fun p => jsonQuote p.1 ++ ":" ++ p.2)) ++ "\x7d") ++ "`" := rfl
  rw [e1, e2, hs]

/-- Witness for C7: the same two-entry mapping serialized from both
iteration orders. -/
theorem structured_default_deterministic_witness :
    formatDefault (.vmap [("b", .vnull), ("a", .vbool true)])
      = formatDefault (.vmap [("a", .vbool true), ("b", .vnull)]) :=
  (structured_default_deterministic []
      [("b", .vnull), ("a", .vbool true)]
      [("a", .vbool true), ("b", .vnull)]).2.2.1
    (List.Perm.swap ("a", YamlValue.vbool true) ("b", YamlValue.vnull) [])
    (by decide)

/-! ### C5 -/

theorem hasSub_singleton (c : Char) (l : List Char) :
    hasSub [c] l = true ↔ c ∈ l := by
  induction l with
  | nil => simp [hasSub]
  | cons a rest ih =>
    simp [hasSub, List.isPrefixOf, ih, List.mem_cons, Bool.or_eq_true, beq_iff_eq]

theorem findSub_singleton_append (pre post : List Char) (c : Char) (h : c ∉ pre) :
    findSub [c] (pre ++ c :: post) = some pre.length := by
  induction pre with
  | nil => simp [findSub, List.isPrefixOf]
  | cons a rest ih =>
    have ha : (c == a) = false := by
      have : a ≠ c := fun he => h (by simp [he])
      simp [this, Ne.symm this]
    have hrest : c ∉ rest := fun hm => h (List.mem_cons_of_mem _ hm)
    simp [findSub, List.isPrefixOf, ha, ih hrest]

theorem findSub_dslash (pre rest : List Char) (h : '/' ∉ pre) :
    findSub ['/', '/'] (pre ++ ':' :: '/' :: '/' :: rest) = some (pre.length + 1) := by
  induction pre with
  | nil => simp [findSub, List.isPrefixOf]
  | cons a p ih =>
    have ha : ('/' == a) = false := by
      have : a ≠ '/' := fun he => h (by simp [he])
      simp [Ne.symm this]
    have hp : '/' ∉ p := fun hm => h (List.mem_cons_of_mem _ hm)
    simp [findSub, List.isPrefixOf, ha, ih hp]

theorem hasSub_eq_isSome_findSub (needle l : List Char) :
    hasSub needle l = (findSub needle l).isSome := by
  induction l with
  | nil => by_cases h : needle.isEmpty <;> simp [hasSub, findSub, h]
  | cons a rest ih =>
    by_cases h : needle.isPrefixOf (a :: rest) <;> simp [hasSub, findSub, h, ih]

theorem parseGitRemoteURL_ssh (pre path : List Char)
    (hpre : ':' ∉ pre) (hat : '@' ∈ pre) :
    parseGitRemoteURL (pre ++ ':' :: path).asString
      = (trimSuffix ".git".data path).asString := by
  have hcolon : hasSub [':'] (pre ++ ':' :: path) = true :=
    (hasSub_singleton _ _).mpr (by simp)
  have hatm : hasSub ['@'] (pre ++ ':' :: path) = true :=
    (hasSub_singleton _ _).mpr (List.mem_append.mpr (Or.inl hat))
  have hfind : findSub [':'] (pre ++ ':' :: path) = some pre.length :=
    findSub_singleton_append pre path ':' hpre
  have hdrop : (pre ++ ':' :: path).drop (pre.length + 1) = path := by
    have h1 : pre ++ ':' :: path = (pre ++ [':']) ++ path := by simp
    rw [h1, List.drop_left' (by simp)]
  unfold parseGitRemoteURL
  simp only [asString_data, hcolon, hatm, Bool.and_self, if_true, splitN2, hfind]
  simp [hdrop]

theorem parseGitRemoteURL_url (scheme host path : List Char)
    (hat : '@' ∉ scheme ++ ':' :: '/' :: '/' :: (host ++ '/' :: path))
    (hs : '/' ∉ scheme) (hh : '/' ∉ host) :
    parseGitRemoteURL (scheme ++ ':' :: '/' :: '/' :: (host ++ '/' :: path)).asString
      = (trimSuffix ".git".data path).asString := by
  have hatm : hasSub ['@'] (scheme ++ ':' :: '/' :: '/' :: (host ++ '/' :: path)) = false := by
    rw [← Bool.not_eq_true, hasSub_singleton]
    exact hat
  have hfind : findSub ['/', '/'] (scheme ++ ':' :: '/' :: '/' :: (host ++ '/' :: path))
      = some (scheme.length + 1) :=
    findSub_dslash scheme (host ++ '/' :: path) hs
  have hdsl : hasSub ['/', '/'] (scheme ++ ':' :: '/' :: '/' :: (host ++ '/' :: path)) = true := by
    rw [hasSub_eq_isSome_findSub, hfind]
    rfl
  have hdrop1 : (scheme ++ ':' :: '/' :: '/' :: (host ++ '/' :: path)).drop
      (scheme.length + 1 + 2) = host ++ '/' :: path := by
    have h1 : scheme ++ ':' :: '/' :: '/' :: (host ++ '/' :: path)
        = (scheme ++ [':', '/', '/']) ++ (host ++ '/' :: path) := by simp
    rw [h1, List.drop_left' (by simp)]
  have hfind2 : findSub ['/'] (host ++ '/' :: path) = some host.length :=
    findSub_singleton_append host path '/' hh
  have hdrop2 : (host ++ '/' :: path).drop (host.length + 1) = path := by
    have h1 : host ++ '/' :: path = (host ++ ['/']) ++ path := by simp
    rw [h1, List.drop_left' (by simp)]
  unfold parseGitRemoteURL
  simp only [asString_data, hatm, Bool.and_false, Bool.false_and, if_false,
    hdsl, if_true, splitN2, hfind, hfind2]
  simp [hdrop1, hfind2, hdrop2]

theorem parseGitRemoteURL_no_scheme (remote : String)
    (h1 : hasSub [':'] remote.data = false ∨ hasSub ['@'] remote.data = false)
    (h2 : hasSub ['/', '/'] remote.data = false) :
    parseGitRemoteURL remote = "" := by
  unfold parseGitRemoteURL
  rcases h1 with h1 | h1 <;> simp [h1, h2]

/-- C5: reduction of an auto-detected remote address.  A
secure-shell-style address — any prefix containing "@" but no ":",
followed by ":" and the repository path — reduces to that path with a
trailing ".git" stripped and all intervening slashes (subgroups)
preserved.  A URL-style address — scheme, "://", a slash-free host,
"/", then the path — with no "@" anywhere likewise reduces to the path
with ".git" stripped.  An address with no recognizable scheme (missing
":" or "@", and no "//") reduces to the empty string.  The spec's three
concrete examples evaluate accordingly. -/
theorem remote_address_reduction :
    (parseGitRemoteURL "git@gitlab.com:group/subgroup/project.git"
        = "group/subgroup/project")
    ∧ (parseGitRemoteURL "https://gitlab.com/group/project.git" = "group/project")
    ∧ (parseGitRemoteURL "gitlab.com/group/project" = "")
    ∧ (∀ pre path : List Char, ':' ∉ pre → '@' ∈ pre →
        parseGitRemoteURL (pre ++ ':' :: path).asString
          = (trimSuffix ".git".data path).asString)
    ∧ (∀ scheme host path : List Char,
        '@' ∉ scheme ++ ':' :: '/' :: '/' :: (host ++ '/' :: path) →
        '/' ∉ scheme → '/' ∉ host →
        parseGitRemoteURL (scheme ++ ':' :: '/' :: '/' :: (host ++ '/' :: path)).asString
          = (trimSuffix ".git".data path).asString)
    ∧ (∀ remote : String,
        (hasSub [':'] remote.data = false ∨ hasSub ['@'] remote.data = false) →
        hasSub ['/', '/'] remote.data = false →
        parseGitRemoteURL remote = "") :=
  ⟨rfl, rfl, rfl, parseGitRemoteURL_ssh, parseGitRemoteURL_url, parseGitRemoteURL_no_scheme⟩

/-- Witness for C5: the general secure-shell reduction applied to the
spec's first example, and the no-scheme case applied to a bare path. -/
theorem remote_address_reduction_witness :
    parseGitRemoteURL ("git@gitlab.com".data ++ ':' :: "group/subgroup/project.git".data).asString
      = (trimSuffix ".git".data "group/subgroup/project.git".data).asString
    ∧ parseGitRemoteURL "gitlab.com/group/project" = "" :=
  ⟨remote_address_reduction.2.2.2.1 "git@gitlab.com".data "group/subgroup/project.git".data
    (by decide) (by decide),
   remote_address_reduction.2.2.2.2.2 "gitlab.com/group/project"
    (Or.inr (by decide)) (by decide)⟩
